import Mathlib

/-!
Verification of the memory-tracker extension: a shallow embedding of the
C sources under ext/memory (profiler/table.c, profiler/capture.c,
profiler/allocations.c, profiler/events.c, tracker/capture.c) together
with theorems settling the specification claims.

Modelling conventions:
* `VALUE` handles are `Nat`.  The empty slot marker is the literal `0` and
  `TOMBSTONE` is `Qnil` (a fixed small non-zero constant, here `4`); real
  object handles are assumed distinct from both.
* `size_t` counters are `Nat`; the C code never relies on wraparound for
  them (all increments/decrements are guarded), and the hash function's
  64-bit wraparound is modelled by explicit `% 2^64`.
* `st_table` instances are modelled as insertion-ordered association lists.
* Non-managed allocation (`malloc`/`calloc`/`realloc`) is modelled as
  always succeeding; the silent-drop paths for allocation failure are not
  exercised by any claim.
-/

namespace MemoryTracker

/-! ### Object table (profiler/table.c) -/

/-- The deleted-slot marker used by table.c: `TOMBSTONE = Qnil`. -/
def TOMBSTONE : Nat := 4

/-- Empty-slot marker: `calloc` zero-fill, compared as `object == 0`. -/
def EMPTY : Nat := 0

/-- Safety limit from table.c: abort a probe past this many steps. -/
def MAX_PROBE_LENGTH : Nat := 10000

/-- One slot of the open-addressing table
(`Memory_Profiler_Object_Table_Entry`): the object key, its class, the
user-data handle, and the `allocations` wrapper handle also declared in
table.h (no table.c operation reads or writes it; it is carried along
untouched). -/
structure Entry where
  object : Nat
  klass : Nat
  data : Nat
  allocations : Nat
deriving Repr, DecidableEq

/-- A freshly zeroed slot. -/
def Entry.zero : Entry := ⟨0, 0, 0, 0⟩

instance : Inhabited Entry := ⟨Entry.zero⟩

/-- Model of `struct Memory_Profiler_Object_Table`. -/
structure Table where
  strong : Nat
  capacity : Nat
  count : Nat
  tombstones : Nat
  entries : List Entry
deriving Repr, DecidableEq

/-- Read a slot; out-of-range reads yield the zero entry (never happens for
well-formed tables, whose `entries` has length `capacity`). -/
def slotAt (entries : List Entry) (i : Nat) : Entry :=
  (entries[i]?).getD Entry.zero

/-- Model of `hash_object` from table.c: discard alignment bits, multiplicative and
avalanche mixing in 64-bit arithmetic, then reduce modulo capacity. -/
def hash_object (object capacity : Nat) : Nat :=
  let M := 2 ^ 64
  let h := object / 2 ^ 3
  let h := (h * 2654435761) % M
  let h := h ^^^ (h / 2 ^ 16)
  let h := (h * 0x85ebca6b) % M
  let h := h ^^^ (h / 2 ^ 13)
  let h := (h * 0xc2b2ae35) % M
  let h := h ^^^ (h / 2 ^ 16)
  h % capacity

/-- The probe walk of `find_entry`: `fuel` bounds the do-while loop (a full
cycle of the table), `probeCount` mirrors the C probe counter used for the
`MAX_PROBE_LENGTH` defensive cap.  Returns `(found, index)`. -/
def findEntryAux (entries : List Entry) (capacity k : Nat) :
    Nat → Nat → Nat → Bool × Nat
  | 0, index, _ => (false, index)
  | fuel + 1, index, probeCount =>
    if probeCount + 1 > MAX_PROBE_LENGTH then (false, index)
    else if (slotAt entries index).object = EMPTY then (false, index)
    else if (slotAt entries index).object ≠ TOMBSTONE ∧ (slotAt entries index).object = k then
      (true, index)
    else findEntryAux entries capacity k fuel ((index + 1) % capacity) (probeCount + 1)

/-- Model of `find_entry` from table.c (the statistics logging is pure output and is
not modelled). -/
def find_entry (entries : List Entry) (capacity k : Nat) : Bool × Nat :=
  findEntryAux entries capacity k capacity (hash_object k capacity) 0

/-- The probe walk of `find_insert_slot`, remembering the first tombstone
encountered so it can be reused. -/
def findInsertSlotAux (entries : List Entry) (capacity k : Nat) :
    Nat → Nat → Nat → Option Nat → Bool × Nat
  | 0, index, _, firstTombstone => (false, firstTombstone.getD index)
  | fuel + 1, index, probeCount, firstTombstone =>
    if probeCount + 1 > MAX_PROBE_LENGTH then (false, firstTombstone.getD index)
    else if (slotAt entries index).object = EMPTY then (false, firstTombstone.getD index)
    else if (slotAt entries index).object = TOMBSTONE then
      findInsertSlotAux entries capacity k fuel ((index + 1) % capacity) (probeCount + 1)
        (some (firstTombstone.getD index))
    else if (slotAt entries index).object = k then (true, index)
    else findInsertSlotAux entries capacity k fuel ((index + 1) % capacity) (probeCount + 1)
      firstTombstone

/-- Model of `find_insert_slot` from table.c. -/
def find_insert_slot (t : Table) (k : Nat) : Bool × Nat :=
  findInsertSlotAux t.entries t.capacity k t.capacity (hash_object k t.capacity) 0 none

/-- Model of `resize_table`: double the capacity, rehash every occupied entry,
dropping all tombstones (`calloc` modelled as succeeding). -/
def resize_table (t : Table) : Table :=
  let newCapacity := t.capacity * 2
  let start : List Entry × Nat := (List.replicate newCapacity Entry.zero, 0)
  let fin := t.entries.foldl
    (fun acc e =>
      if e.object ≠ EMPTY ∧ e.object ≠ TOMBSTONE then
        let r := find_entry acc.1 newCapacity e.object
        (acc.1.set r.2 e, acc.2 + 1)
      else acc)
    start
  { t with capacity := newCapacity, count := fin.2, tombstones := 0, entries := fin.1 }

/-- Model of `Memory_Profiler_Object_Table_insert`.  The C load-factor test
`(double)(count + tombstones) / capacity > 0.5` is modelled by the exact
rational comparison `2 * (count + tombstones) > capacity` (exact for every
realistic size).  Returns the table and the index of the returned entry
pointer. -/
def Object_Table_insert (t : Table) (k : Nat) : Table × Nat :=
  let t := if 2 * (t.count + t.tombstones) > t.capacity then resize_table t else t
  let r := find_insert_slot t k
  if r.1 = false then
    let isTomb := (slotAt t.entries r.2).object = TOMBSTONE
    ({ t with
        tombstones := if isTomb then t.tombstones - 1 else t.tombstones,
        count := t.count + 1,
        entries := t.entries.set r.2
          ({ slotAt t.entries r.2 with object := k, klass := 0, data := 0 }) }, r.2)
  else
    ({ t with entries := t.entries.set r.2 { slotAt t.entries r.2 with object := k } }, r.2)

/-- Model of `Memory_Profiler_Object_Table_lookup`: entry index, or `none` for NULL. -/
def Object_Table_lookup (t : Table) (k : Nat) : Option Nat :=
  let r := find_entry t.entries t.capacity k
  if r.1 then some r.2 else none

/-- Model of `Memory_Profiler_Object_Table_delete`: tombstone the slot holding `k`. -/
def Object_Table_delete (t : Table) (k : Nat) : Table :=
  let r := find_entry t.entries t.capacity k
  if r.1 = false then t
  else
    { t with
        entries := t.entries.set r.2
          ({ slotAt t.entries r.2 with object := TOMBSTONE, klass := 0, data := 0 }),
        count := t.count - 1,
        tombstones := t.tombstones + 1 }

/-- Position reached after `m` linear-probing steps starting at `index`. -/
def stepN (capacity : Nat) : Nat → Nat → Nat
  | index, 0 => index
  | index, m + 1 => stepN capacity ((index + 1) % capacity) m

example : hash_object 16 8 < 8 := by decide

example :
    let t : Table := ⟨0, 8, 0, 0, List.replicate 8 Entry.zero⟩
    let r := Object_Table_insert t 16
    Object_Table_lookup r.1 16 = some r.2 := by decide

/-! ### Capture controller (profiler/capture.c, profiler/allocations.c) -/

/-- Modelled from the spec: `Memory_Profiler_Queue` (queue.h/queue.c are not
among the provided sources, only their use sites) is the spec's Event Queue —
an append-only buffer of fixed-size records with O(1) amortized `push`,
indexed access `at(i)` in push order, and a `clear` that resets the count.
A Lean list realises exactly those operations: `push` is `· ++ [x]`
(growth assumed to succeed; on failure the C code silently drops the
event), `at(i)` is positional access, and `clear` yields `[]`. -/
abbrev Memory_Profiler_Queue (α : Type) : Type := List α

/-- Event symbols `:newobj` / `:freeobj` passed to user callbacks. -/
inductive Sym where
  | newobj
  | freeobj
deriving Repr, DecidableEq

/-- Model of `struct Memory_Profiler_Capture_Allocations` (allocations.h): per-class
callback, counters and the `object_states` st_table (`none` models the NULL
table, `some l` an allocated table with entries `l`). -/
structure Allocations where
  callback : Option Nat
  new_count : Nat
  free_count : Nat
  object_states : Option (List (Nat × Nat))
deriving Repr, DecidableEq

/-- A zeroed record, the value read through a dangling handle (never
happens for well-formed captures). -/
def defaultRecord : Allocations := ⟨none, 0, 0, none⟩

instance : Inhabited Allocations := ⟨defaultRecord⟩

/-- Model of `st_lookup` on an association list. -/
def stLookup (l : List (Nat × Nat)) (k : Nat) : Option Nat :=
  (l.find? (fun p => p.1 = k)).map (fun p => p.2)

/-- Model of `st_insert`: replace the value when the key exists, else append. -/
def assocInsert (l : List (Nat × Nat)) (k v : Nat) : List (Nat × Nat) :=
  if (l.find? (fun p => p.1 = k)).isSome then
    l.map (fun p => if p.1 = k then (k, v) else p)
  else l ++ [(k, v)]

/-- Model of `st_delete`: the removed value (if any) and the remaining entries. -/
def assocDelete (l : List (Nat × Nat)) (k : Nat) : Option Nat × List (Nat × Nat) :=
  match l.find? (fun p => p.1 = k) with
  | some p => (some p.2, l.eraseP (fun q => q.1 = k))
  | none => (none, l)

/-- Model of `struct Memory_Profiler_Capture`.  The wrapped `Allocations` VALUEs are
modelled as an arena (`records`, indexed by handle) because queue items hold
direct references to them, independent of the `tracked` class map.  Queue
items are `(klass, allocations handle, object)` for newobj and
`(klass, allocations handle, state)` for freeobj. -/
structure Capture where
  records : List Allocations
  tracked : List (Nat × Nat)
  running : Bool
  enabled : Bool
  newobjQueue : Memory_Profiler_Queue (Nat × Nat × Nat)
  freeobjQueue : Memory_Profiler_Queue (Nat × Nat × Nat)
deriving Repr, DecidableEq

/-- Dereference an `Allocations` handle. -/
def getRecord (s : Capture) (h : Nat) : Allocations :=
  (s.records[h]?).getD defaultRecord

/-- Overwrite the record behind a handle. -/
def setRecord (s : Capture) (h : Nat) (r : Allocations) : Capture :=
  { s with records := s.records.set h r }

/-- A handler's result: the new capture state and whether
`rb_postponed_job_trigger` was called. -/
structure HandlerResult where
  capture : Capture
  triggered : Bool
deriving Repr, DecidableEq

/-- Model of `Memory_Profiler_Capture_newobj_handler`: always bump `new_count`; only
when `enabled` and a callback is registered, push an Allocated item and
trigger the postponed job.  An unseen class gets a fresh record with
`new_count = 1`. -/
def newobj_handler (s : Capture) (klass object : Nat) : HandlerResult :=
  match stLookup s.tracked klass with
  | some h =>
    let r := getRecord s h
    let r := { r with new_count := r.new_count + 1 }
    let s := setRecord s h r
    if s.enabled ∧ r.callback.isSome then
      { capture := { s with newobjQueue := s.newobjQueue ++ [(klass, h, object)] },
        triggered := true }
    else { capture := s, triggered := false }
  | none =>
    { capture :=
        { s with
            records := s.records ++ [⟨none, 1, 0, none⟩],
            tracked := s.tracked ++ [(klass, s.records.length)] },
      triggered := false }

/-- Model of `Memory_Profiler_Capture_freeobj_handler`: always bump `free_count`;
only when `enabled`, a callback is registered and the `object_states` table
exists does it look up (and remove) the state stored at newobj-processing
time, pushing a Freed item carrying that state. -/
def freeobj_handler (s : Capture) (klass object : Nat) : HandlerResult :=
  match stLookup s.tracked klass with
  | some h =>
    let r := getRecord s h
    let r := { r with free_count := r.free_count + 1 }
    let s := setRecord s h r
    if s.enabled ∧ r.callback.isSome ∧ r.object_states.isSome then
      match assocDelete (r.object_states.getD []) object with
      | (some st, rest) =>
        let s := setRecord s h { r with object_states := some rest }
        { capture := { s with freeobjQueue := s.freeobjQueue ++ [(klass, h, st)] },
          triggered := true }
      | (none, _) => { capture := s, triggered := false }
    else { capture := s, triggered := false }
  | none => { capture := s, triggered := false }

/-- The result of one user-callback call (`rb_funcall`): the allocations the
callback performed while running (each fires the NEWOBJ hook), and either
`some v` (returned `v`, with `none` for `Qnil`) or `none` when the callback
raised. -/
structure CbResult where
  allocs : List (Nat × Nat)
  ret : Option (Option Nat)

/-- The behaviour of the registered callback procs, indexed by callback id:
an abstract environment standing for arbitrary user code. -/
def CbEnv : Type := Nat → Sym → Option Nat → CbResult

/-- One logged callback invocation: class, event symbol, payload argument,
and outcome (`none` = the callback raised). -/
structure Inv where
  klass : Nat
  sym : Sym
  payload : Option Nat
  ret : Option (Option Nat)
deriving Repr, DecidableEq

/-- Allocations performed inside a callback fire the NEWOBJ event hook
synchronously. -/
def applyAllocs (s : Capture) (l : List (Nat × Nat)) : Capture :=
  l.foldl (fun s ko => (newobj_handler s ko.1 ko.2).capture) s

/-- Result of a drain: final capture state, the invocation log, and whether
an exception escaped (aborting the drain via longjmp). -/
structure DrainResult where
  capture : Capture
  log : List Inv
  raised : Bool
deriving Repr, DecidableEq

/-- First loop of `Memory_Profiler_Capture_process_queues`: replay Allocated
items.  With a callback present, `rb_funcall(callback, (klass, :newobj,
nil))` runs (its allocations re-enter the NEWOBJ handler with queueing
disabled); a non-nil return value is stored in `object_states` keyed by the
object.  An exception from the callback aborts the whole drain. -/
def processNewItems (β : CbEnv) :
    List (Nat × Nat × Nat) → Capture → List Inv → DrainResult
  | [], s, log => ⟨s, log, false⟩
  | (klass, h, object) :: rest, s, log =>
    match (getRecord s h).callback with
    | none => processNewItems β rest s log
    | some cb =>
      let res := β cb Sym.newobj none
      let s := applyAllocs s res.allocs
      let log := log ++ [⟨klass, Sym.newobj, none, res.ret⟩]
      match res.ret with
      | none => ⟨s, log, true⟩
      | some st =>
        match st with
        | none => processNewItems β rest s log
        | some v =>
          let r := getRecord s h
          let s := setRecord s h
            { r with object_states := some (assocInsert (r.object_states.getD []) object v) }
          processNewItems β rest s log

/-- Second loop of `process_queues`: replay Freed items, passing the state
captured at freeobj-hook time as the payload. -/
def processFreeItems (β : CbEnv) :
    List (Nat × Nat × Nat) → Capture → List Inv → DrainResult
  | [], s, log => ⟨s, log, false⟩
  | (klass, h, state) :: rest, s, log =>
    match (getRecord s h).callback with
    | none => processFreeItems β rest s log
    | some cb =>
      let res := β cb Sym.freeobj (some state)
      let s := applyAllocs s res.allocs
      let log := log ++ [⟨klass, Sym.freeobj, some state, res.ret⟩]
      match res.ret with
      | none => ⟨s, log, true⟩
      | some _ => processFreeItems β rest s log

/-- Model of `Memory_Profiler_Capture_process_queues`: disable queueing, replay all
Allocated items then all Freed items, clear both queues, restore the prior
queueing state.  Queueing being disabled, the handlers (the only writers)
cannot grow the queues mid-drain, so iterating the entry snapshot equals the
C loop over the live buffer.  An escaping callback exception skips the
clearing and the restore (longjmp). -/
def process_queues (β : CbEnv) (s : Capture) : DrainResult :=
  let wasEnabled := s.enabled
  let s := { s with enabled := false }
  let r1 := processNewItems β s.newobjQueue s []
  if r1.raised then r1
  else
    let r2 := processFreeItems β r1.capture.freeobjQueue r1.capture r1.log
    if r2.raised then r2
    else
      let s := r2.capture
      ⟨{ s with newobjQueue := [], freeobjQueue := [], enabled := wasEnabled },
        r2.log, false⟩

/-- Model of `Memory_Profiler_Capture_start`: no-op returning Qfalse when already
running; otherwise install the event hook and set both flags. -/
def start (s : Capture) : Bool × Capture :=
  if s.running then (false, s)
  else (true, { s with running := true, enabled := true })

/-- Result of `stop`: `returned = none` models an exception escaping from
the flush before `stop` could return. -/
structure StopResult where
  capture : Capture
  log : List Inv
  raised : Bool
  returned : Option Bool
deriving Repr, DecidableEq

/-- Model of `Memory_Profiler_Capture_stop`: no-op returning Qfalse when not
running; otherwise remove the hook, synchronously flush both queues via
`process_queues`, and clear both flags. -/
def stop (β : CbEnv) (s : Capture) : StopResult :=
  if s.running = false then ⟨s, [], false, some false⟩
  else
    let d := process_queues β s
    if d.raised then ⟨d.capture, d.log, true, none⟩
    else ⟨{ d.capture with running := false, enabled := false }, d.log, false, some true⟩

/-- Model of `Memory_Profiler_Capture_track`: register/update a callback, creating
the record when absent. -/
def track (s : Capture) (klass : Nat) (callback : Option Nat) : Capture :=
  match stLookup s.tracked klass with
  | some h =>
    let r := getRecord s h
    setRecord s h { r with callback := callback }
  | none =>
    { s with
        records := s.records ++ [⟨callback, 0, 0, none⟩],
        tracked := s.tracked ++ [(klass, s.records.length)] }

/-- Event delivery from the VM: the hook is installed exactly while
`running` (installed by `start`, removed by `stop` before any other code
runs), so NEWOBJ events reach the handler only then. -/
def deliverNewobj (s : Capture) (klass object : Nat) : Capture :=
  if s.running then (newobj_handler s klass object).capture else s

/-- FREEOBJ delivery, symmetric to `deliverNewobj`. -/
def deliverFreeobj (s : Capture) (klass object : Nat) : Capture :=
  if s.running then (freeobj_handler s klass object).capture else s

/-- New-count of a class as stored in its record (0 when untracked). -/
def newCountOf (s : Capture) (klass : Nat) : Nat :=
  match stLookup s.tracked klass with
  | some h => (getRecord s h).new_count
  | none => 0

/-- Free-count of a class as stored in its record (0 when untracked). -/
def freeCountOf (s : Capture) (klass : Nat) : Nat :=
  match stLookup s.tracked klass with
  | some h => (getRecord s h).free_count
  | none => 0

/-- Model of `Memory_Profiler_Capture_count_for`: clamped live count for a class. -/
def count_for (s : Capture) (klass : Nat) : Nat :=
  match stLookup s.tracked klass with
  | some h =>
    let r := getRecord s h
    if r.free_count > r.new_count then 0 else r.new_count - r.free_count
  | none => 0

/-- Model of `Memory_Profiler_Allocations_retained_count`: clamped live count on a
single record. -/
def retained_count (r : Allocations) : Nat :=
  if r.free_count > r.new_count then 0 else r.new_count - r.free_count

/-! ### Global event queue (profiler/events.c) -/

/-- Model of `enum Memory_Profiler_Event_Type`. -/
inductive EType where
  | typeNone
  | typeNewobj
  | typeFreeobj
deriving Repr, DecidableEq

/-- Model of `struct Memory_Profiler_Event`. -/
structure GEvent where
  type : EType
  capture : Nat
  klass : Nat
  object : Nat
deriving Repr, DecidableEq

/-- Model of `struct Memory_Profiler_Events`: the double-buffered global queues.
`errinfo` is `true` while an exception object is pending in the thread's
error slot; `warnings` counts `rb_warning` emissions. -/
structure Events where
  available : Memory_Profiler_Queue GEvent
  processing : Memory_Profiler_Queue GEvent
  warnings : Nat
  errinfo : Bool
deriving Repr, DecidableEq

/-- Model of `Memory_Profiler_Events_enqueue`: append to the available queue and
trigger the postponed job (queue growth modelled as succeeding; on failure
the C code drops the event and returns 0). -/
def Events_enqueue (e : Events) (ev : GEvent) : Events × Bool :=
  ({ e with available := e.available ++ [ev] }, true)

/-- The loop body of `Memory_Profiler_Events_process_queue`:
`Memory_Profiler_Capture_process_event` (whose definition is not among the
provided sources) is abstracted as `hproc`, returning `true` when it raised.
Each event is run under `rb_protect`; a raise emits one `rb_warning`, clears
`errinfo`, and the loop continues.  Returns the final warning count,
`errinfo` flag, and the events handed to `hproc` in order. -/
def gProcessLoop (hproc : GEvent → Bool) :
    List GEvent → Nat → Bool → Nat × Bool × List GEvent
  | [], w, err => (w, err, [])
  | ev :: rest, w, err =>
    let raised := hproc ev
    let w := if raised then w + 1 else w
    let err := if raised then false else err
    let r := gProcessLoop hproc rest w err
    (r.1, r.2.1, ev :: r.2.2)

/-- Model of `Memory_Profiler_Events_process_queue`: swap the buffers, process every
event of the snapshot in FIFO order, then clear the processing queue.
Returns the new state and the processed events in processing order. -/
def Events_process_queue (hproc : GEvent → Bool) (e : Events) : Events × List GEvent :=
  let queueToProcess := e.available
  let e := { e with available := e.processing, processing := queueToProcess }
  let r := gProcessLoop hproc e.processing e.warnings e.errinfo
  ({ e with processing := [], warnings := r.1, errinfo := r.2.1 }, r.2.2)

/-! ### Derived views and concrete scenarios used by the claims -/

/-- The callback registered for a class, `none` when untracked or when the
record holds `Qnil`. -/
def callbackOf (s : Capture) (klass : Nat) : Option Nat :=
  match stLookup s.tracked klass with
  | some h => (getRecord s h).callback
  | none => none

/-- Look up a stored state value in a record's `object_states`. -/
def assocLookup (l : List (Nat × Nat)) (k : Nat) : Option Nat :=
  (l.find? (fun p => p.1 = k)).map (fun p => p.2)

/-- A capture with one tracked class `1` (record handle 0, callback id 0),
running and enabled, both queues empty. -/
def baseCapture : Capture := ⟨[⟨some 0, 0, 0, none⟩], [(1, 0)], true, true, [], []⟩

/-- Callback behaviour that always returns the state value `7`. -/
def c2Beta : CbEnv := fun _ _ _ => ⟨[], some (some 7)⟩

/-- Allocated(42) observed: the event is enqueued. -/
def c2s1 : Capture := (newobj_handler baseCapture 1 42).capture

/-- Freed(42) observed next, before any drain ran. -/
def c2s2 : Capture := (freeobj_handler c2s1 1 42).capture

/-- Callback behaviour that always returns `Qnil`. -/
def c5Beta : CbEnv := fun _ _ _ => ⟨[], some none⟩

/-- Allocated(42) observed under the nil-returning callback. -/
def c5s1 : Capture := (newobj_handler baseCapture 1 42).capture

/-- Callback behaviour that always returns the state value `5`. -/
def c6Beta : CbEnv := fun _ _ _ => ⟨[], some (some 5)⟩

/-- Allocated(42) observed. -/
def c6s1 : Capture := (newobj_handler baseCapture 1 42).capture

/-- First drain: the Allocated(42) callback ran, state `5` stored. -/
def c6s2 : Capture := (process_queues c6Beta c6s1).capture

/-- Freed(42) observed (enqueued with its stored state). -/
def c6s3 : Capture := (freeobj_handler c6s2 1 42).capture

/-- Allocated(43) observed, strictly after Freed(42). -/
def c6s4 : Capture := (newobj_handler c6s3 1 43).capture

/-- Callback behaviour that always raises. -/
def c8Beta : CbEnv := fun _ _ _ => ⟨[], none⟩

/-- A running capture with one pending Allocated event whose callback will
raise during the drain. -/
def c8State : Capture := ⟨[⟨some 0, 0, 0, none⟩], [(1, 0)], true, true, [(1, 0, 42)], []⟩



/-- An empty capacity-8 table, the C9 witness input. -/
def c9Table : Table := ⟨0, 8, 0, 0, List.replicate 8 Entry.zero⟩

/-- A capacity-8 table whose probe chain for handle 16 (hash slot 6) passes
a tombstone at slot 6 before finding 16 at slot 7; the C10 witness input. -/
def c10Table : Table :=
  ⟨0, 8, 1, 1, [Entry.zero, Entry.zero, Entry.zero, Entry.zero, Entry.zero, Entry.zero,
    ⟨TOMBSTONE, 0, 0, 0⟩, ⟨16, 0, 0, 0⟩]⟩

/-- The invocation log the first drain loop produces from a newobj-queue
snapshot: one `(klass, :newobj, nil)` call per item whose record still has a
callback, in queue order. -/
def expectedNewLog (β : CbEnv) (s : Capture) (items : List (Nat × Nat × Nat)) : List Inv :=
  (items.filter (fun it => ((getRecord s it.2.1).callback).isSome)).map
    (fun it => ⟨it.1, Sym.newobj, none,
      (β (((getRecord s it.2.1).callback).getD 0) Sym.newobj none).ret⟩)

/-- The invocation log the second drain loop produces from a freeobj-queue
snapshot: one `(klass, :freeobj, state)` call per item whose record still
has a callback, in queue order. -/
def expectedFreeLog (β : CbEnv) (s : Capture) (items : List (Nat × Nat × Nat)) : List Inv :=
  (items.filter (fun it => ((getRecord s it.2.1).callback).isSome)).map
    (fun it => ⟨it.1, Sym.freeobj, some it.2.2,
      (β (((getRecord s it.2.1).callback).getD 0) Sym.freeobj (some it.2.2)).ret⟩)

/-- Callback behaviour returning `Qnil` with no nested allocations; used to
instantiate hypotheses in witnesses. -/
def betaNil : CbEnv := fun _ _ _ => ⟨[], some none⟩

/-- Callback behaviour for the C2 witness: state `7` on newobj, `Qnil` on
freeobj. -/
def betaC2W : CbEnv := fun _ sy _ =>
  match sy with
  | Sym.newobj => ⟨[], some (some 7)⟩
  | Sym.freeobj => ⟨[], some none⟩

/-- A running capture with one pending Allocated and one pending Freed
event, used by the C3 witness. -/
def c3State : Capture := ⟨[⟨some 0, 1, 1, none⟩], [(1, 0)], true, true, [(1, 0, 42)], [(1, 0, 7)]⟩

/-- A paused (running but queueing-disabled) capture used by the C7
witness. -/
def c7State : Capture := ⟨[⟨some 0, 5, 2, none⟩], [(1, 0)], true, false, [], []⟩

end MemoryTracker

namespace MemoryTracker

/-! ### Helper lemmas -/

theorem gProcessLoop_spec (hproc : GEvent → Bool) (l : List GEvent) (w : Nat) (err : Bool) :
    gProcessLoop hproc l w err =
      (w + l.countP hproc, err && l.all (fun ev => !hproc ev), l) := by
  induction l generalizing w err with
  | nil => simp [gProcessLoop]
  | cons ev rest ih =>
    simp only [gProcessLoop, ih, List.countP_cons, List.all_cons]
    cases hr : hproc ev
    all_goals simp [hr]
    all_goals omega

/-! ### Claims -/

/-- Claim C1: for every capture state and tracked type, the live count
reported by `count_for` (and by `retained_count` on any record) equals
`max 0 (new_count - free_count)`; in particular it is zero, never negative,
when `free_count` exceeds `new_count`. -/
theorem C1_live_count_clamped (s : Capture) (klass : Nat) (r : Allocations) :
    (count_for s klass : Int) =
      max 0 ((newCountOf s klass : Int) - (freeCountOf s klass : Int)) ∧
    (retained_count r : Int) =
      max 0 ((r.new_count : Int) - (r.free_count : Int)) := by
  constructor
  · unfold count_for newCountOf freeCountOf
    cases stLookup s.tracked klass with
    | none => simp
    | some h =>
      simp only
      split <;> push_cast <;> omega
  · unfold retained_count
    split <;> push_cast <;> omega

/-- Claim C2 counterexample: with `Allocated(42)` then `Freed(42)` both
observed before a single drain, the Freed event is never even enqueued
(no state was stored yet at freeobj-hook time), so the drain invokes only
the Allocated callback and no Freed callback ever runs — not in this drain
and not in any later one. -/
theorem C2_counterexample_same_window_free_dropped :
    c2s1.newobjQueue = [(1, 0, 42)] ∧
    c2s2.freeobjQueue = [] ∧
    (process_queues c2Beta c2s2).log = [⟨1, Sym.newobj, none, some (some 7)⟩] ∧
    (process_queues c2Beta (process_queues c2Beta c2s2).capture).log = [] := by decide

/-- Claim C5 counterexample: processing an Allocated event whose callback
returns `Qnil` stores nothing — `object_states` stays NULL, no sentinel
entry keyed by the object exists after the drain. -/
theorem C5_counterexample_no_sentinel :
    (process_queues c5Beta c5s1).log = [⟨1, Sym.newobj, none, some none⟩] ∧
    (getRecord (process_queues c5Beta c5s1).capture 0).object_states = none := by decide

/-- Claim C6 counterexample: `Freed(42)` is observed and enqueued strictly
before `Allocated(43)`, yet the drain invokes the Allocated(43) callback
first — cross-kind FIFO order is not preserved by
`Memory_Profiler_Capture_process_queues`. -/
theorem C6_counterexample_cross_kind_order :
    c6s3.freeobjQueue = [(1, 0, 5)] ∧
    c6s3.newobjQueue = [] ∧
    (process_queues c6Beta c6s4).log =
      [⟨1, Sym.newobj, none, some (some 5)⟩, ⟨1, Sym.freeobj, some 5, some (some 5)⟩] := by
  decide

/-- Claim C8 counterexample: a callback exception during
`Memory_Profiler_Capture_process_queues` is not caught — the drain aborts
with the exception escaping, the queue is left unflushed and the `enabled`
flag is left cleared instead of restored. -/
theorem C8_counterexample_capture_drain_propagates :
    (process_queues c8Beta c8State).raised = true ∧
    (process_queues c8Beta c8State).capture.newobjQueue = [(1, 0, 42)] ∧
    c8State.enabled = true ∧
    (process_queues c8Beta c8State).capture.enabled = false := by decide

/-- Claim C8 (amended): in the global event-queue drain
(`Memory_Profiler_Events_process_queue`), every exception raised while
processing an event is caught by `rb_protect` at the invocation point,
logged as one warning and suppressed (`errinfo` cleared); the drain then
continues, so all queued events are still processed in order and no
exception propagates out of queue processing. -/
theorem C8_events_drain_suppresses (hproc : GEvent → Bool) (e : Events) :
    (Events_process_queue hproc e).2 = e.available ∧
    (Events_process_queue hproc e).1.warnings = e.warnings + e.available.countP hproc ∧
    (Events_process_queue hproc e).1.errinfo =
      (e.errinfo && e.available.all (fun ev => !hproc ev)) ∧
    (Events_process_queue hproc e).1.processing = [] ∧
    (Events_process_queue hproc e).1.available = e.processing := by
  simp [Events_process_queue, gProcessLoop_spec]

theorem getD_oor (l : List Allocations) (h2 : Nat) (hge : l.length ≤ h2) :
    l[h2]?.getD defaultRecord = defaultRecord := by
  have hn : l[h2]? = none := List.getElem?_eq_none hge
  simp [hn]

theorem getD_set (l : List Allocations) (h h2 : Nat) (r : Allocations) :
    (l.set h r)[h2]?.getD defaultRecord =
      if h = h2 ∧ h < l.length then r else l[h2]?.getD defaultRecord := by
  simp only [List.getElem?_set]
  by_cases he : h = h2
  · subst he
    by_cases hlt : h < l.length
    · simp [hlt]
    · rw [getD_oor _ _ (by omega)]
      simp [hlt]
  · simp [he]

theorem getD_append_one (l : List Allocations) (a : Allocations) (h2 : Nat) :
    (l ++ [a])[h2]?.getD defaultRecord =
      if h2 < l.length then l[h2]?.getD defaultRecord
      else if h2 = l.length then a else defaultRecord := by
  by_cases hlt : h2 < l.length
  · simp [List.getElem?_append_left hlt, hlt]
  · by_cases heq : h2 = l.length
    · subst heq
      simp [List.getElem?_concat_length, hlt]
    · have hn : (l ++ [a])[h2]? = none := by
        apply List.getElem?_eq_none
        simp
        omega
      simp [hn, hlt, heq]

theorem newobj_handler_disabled (s : Capture) (k o : Nat) (hs : s.enabled = false) :
    (newobj_handler s k o).capture.enabled = false ∧
    (newobj_handler s k o).capture.running = s.running ∧
    (newobj_handler s k o).capture.newobjQueue = s.newobjQueue ∧
    (newobj_handler s k o).capture.freeobjQueue = s.freeobjQueue ∧
    (newobj_handler s k o).triggered = false ∧
    (∀ h2, (getRecord (newobj_handler s k o).capture h2).callback = (getRecord s h2).callback) ∧
    (∀ h2, (getRecord (newobj_handler s k o).capture h2).object_states =
      (getRecord s h2).object_states) := by
  unfold newobj_handler
  cases hl : stLookup s.tracked k with
  | some h =>
    simp only [hl, setRecord, hs, Bool.false_eq_true, false_and, if_false]
    refine ⟨?_, ?_, ?_, ?_, ?_, ?_, ?_⟩
    all_goals try trivial
    · intro h2
      simp only [getRecord, getD_set]
      split
      · rename_i hcase
        obtain ⟨he, _⟩ := hcase
        subst he
        rfl
      · rfl
    · intro h2
      simp only [getRecord, getD_set]
      split
      · rename_i hcase
        obtain ⟨he, _⟩ := hcase
        subst he
        rfl
      · rfl
  | none =>
    simp only [hl]
    refine ⟨?_, ?_, ?_, ?_, ?_, ?_, ?_⟩
    all_goals try trivial
    · intro h2
      simp only [getRecord, getD_append_one]
      split
      · rfl
      · split
        · rw [getD_oor _ _ (by omega)]
          rfl
        · rw [getD_oor _ _ (by omega)]
    · intro h2
      simp only [getRecord, getD_append_one]
      split
      · rfl
      · split
        · rw [getD_oor _ _ (by omega)]
          rfl
        · rw [getD_oor _ _ (by omega)]

theorem freeobj_handler_disabled (s : Capture) (k o : Nat) (hs : s.enabled = false) :
    (freeobj_handler s k o).capture.enabled = false ∧
    (freeobj_handler s k o).capture.running = s.running ∧
    (freeobj_handler s k o).capture.newobjQueue = s.newobjQueue ∧
    (freeobj_handler s k o).capture.freeobjQueue = s.freeobjQueue ∧
    (freeobj_handler s k o).triggered = false ∧
    (∀ h2, (getRecord (freeobj_handler s k o).capture h2).callback = (getRecord s h2).callback) ∧
    (∀ h2, (getRecord (freeobj_handler s k o).capture h2).object_states =
      (getRecord s h2).object_states) := by
  unfold freeobj_handler
  cases hl : stLookup s.tracked k with
  | some h =>
    simp only [hl, setRecord, hs, Bool.false_eq_true, false_and, if_false]
    refine ⟨?_, ?_, ?_, ?_, ?_, ?_, ?_⟩
    all_goals try trivial
    · intro h2
      simp only [getRecord, getD_set]
      split
      · rename_i hcase
        obtain ⟨he, _⟩ := hcase
        subst he
        rfl
      · rfl
    · intro h2
      simp only [getRecord, getD_set]
      split
      · rename_i hcase
        obtain ⟨he, _⟩ := hcase
        subst he
        rfl
      · rfl
  | none =>
    simp only [hl]
    refine ⟨hs, ?_, ?_, ?_, ?_, ?_, ?_⟩
    all_goals simp

theorem applyAllocs_disabled (l : List (Nat × Nat)) (s : Capture) (hs : s.enabled = false) :
    (applyAllocs s l).enabled = false ∧
    (applyAllocs s l).running = s.running ∧
    (applyAllocs s l).newobjQueue = s.newobjQueue ∧
    (applyAllocs s l).freeobjQueue = s.freeobjQueue ∧
    (∀ h2, (getRecord (applyAllocs s l) h2).callback = (getRecord s h2).callback) := by
  induction l generalizing s with
  | nil => exact ⟨hs, rfl, rfl, rfl, fun _ => rfl⟩
  | cons ko rest ih =>
    have hstep := newobj_handler_disabled s ko.1 ko.2 hs
    have hrec := ih (newobj_handler s ko.1 ko.2).capture hstep.1
    simp only [applyAllocs, List.foldl_cons] at hrec ⊢
    refine ⟨hrec.1, ?_, ?_, ?_, ?_⟩
    · rw [hrec.2.1, hstep.2.1]
    · rw [hrec.2.2.1, hstep.2.2.1]
    · rw [hrec.2.2.2.1, hstep.2.2.2.1]
    · intro h2
      rw [hrec.2.2.2.2 h2, hstep.2.2.2.2.2.1 h2]

theorem expectedNewLog_congr (β : CbEnv) (s s2 : Capture) (items : List (Nat × Nat × Nat))
    (hcb : ∀ h2, (getRecord s2 h2).callback = (getRecord s h2).callback) :
    expectedNewLog β s2 items = expectedNewLog β s items := by
  unfold expectedNewLog
  rw [List.filter_congr (fun x _ => by rw [hcb x.2.1])]
  exact List.map_congr_left (fun x _ => by rw [hcb x.2.1])

theorem expectedFreeLog_congr (β : CbEnv) (s s2 : Capture) (items : List (Nat × Nat × Nat))
    (hcb : ∀ h2, (getRecord s2 h2).callback = (getRecord s h2).callback) :
    expectedFreeLog β s2 items = expectedFreeLog β s items := by
  unfold expectedFreeLog
  rw [List.filter_congr (fun x _ => by rw [hcb x.2.1])]
  exact List.map_congr_left (fun x _ => by rw [hcb x.2.1])

theorem getRecord_setRecord_callback (s : Capture) (h h2 : Nat) (r : Allocations)
    (hcb : r.callback = (getRecord s h).callback) :
    (getRecord (setRecord s h r) h2).callback = (getRecord s h2).callback := by
  simp only [getRecord, setRecord] at hcb ⊢
  rw [getD_set]
  split
  · rename_i hcase
    obtain ⟨he, _⟩ := hcase
    subst he
    exact hcb
  · rfl

theorem getRecord_setRecord_states (s : Capture) (h h2 : Nat) (r : Allocations)
    (hst : r.object_states = (getRecord s h).object_states) :
    (getRecord (setRecord s h r) h2).object_states = (getRecord s h2).object_states := by
  simp only [getRecord, setRecord] at hst ⊢
  rw [getD_set]
  split
  · rename_i hcase
    obtain ⟨he, _⟩ := hcase
    subst he
    exact hst
  · rfl

theorem processNewItems_spec (β : CbEnv) (hβ : ∀ cb sy v, ((β cb sy v).ret).isSome = true)
    (items : List (Nat × Nat × Nat)) :
    ∀ (s : Capture) (log : List Inv), s.enabled = false →
    (processNewItems β items s log).raised = false ∧
    (processNewItems β items s log).log = log ++ expectedNewLog β s items ∧
    (processNewItems β items s log).capture.enabled = false ∧
    (processNewItems β items s log).capture.running = s.running ∧
    (processNewItems β items s log).capture.newobjQueue = s.newobjQueue ∧
    (processNewItems β items s log).capture.freeobjQueue = s.freeobjQueue ∧
    (∀ h2, (getRecord (processNewItems β items s log).capture h2).callback =
      (getRecord s h2).callback) := by
  induction items with
  | nil =>
    intro s log hs
    exact ⟨rfl, by simp [processNewItems, expectedNewLog], hs, rfl, rfl, rfl, fun _ => rfl⟩
  | cons it rest ih =>
    obtain ⟨klass, h, object⟩ := it
    intro s log hs
    cases hc : (getRecord s h).callback with
    | none =>
      have hrec := ih s log hs
      simp only [processNewItems, hc]
      refine ⟨hrec.1, ?_, hrec.2.2.1, hrec.2.2.2.1, hrec.2.2.2.2.1, hrec.2.2.2.2.2.1,
        hrec.2.2.2.2.2.2⟩
      rw [hrec.2.1]
      have hexp : expectedNewLog β s ((klass, h, object) :: rest) = expectedNewLog β s rest := by
        simp [expectedNewLog, List.filter_cons, hc]
      rw [hexp]
    | some cb =>
      obtain ⟨st, hst⟩ := Option.isSome_iff_exists.mp (hβ cb Sym.newobj none)
      have hexp : expectedNewLog β s ((klass, h, object) :: rest) =
          ⟨klass, Sym.newobj, none, (β cb Sym.newobj none).ret⟩ :: expectedNewLog β s rest := by
        simp [expectedNewLog, List.filter_cons, hc]
      rw [hst] at hexp
      have hA := applyAllocs_disabled (β cb Sym.newobj none).allocs s hs
      set s1 := applyAllocs s (β cb Sym.newobj none).allocs with hs1def
      cases st with
      | none =>
        have hrec := ih s1 (log ++ [⟨klass, Sym.newobj, none, some none⟩]) hA.1
        simp only [processNewItems, hc, hst]
        rw [← hs1def]
        refine ⟨hrec.1, ?_, hrec.2.2.1, ?_, ?_, ?_, ?_⟩
        · rw [hrec.2.1, hexp, expectedNewLog_congr β s s1 rest hA.2.2.2.2]
          simp
        · rw [hrec.2.2.2.1]
          exact hA.2.1
        · rw [hrec.2.2.2.2.1]
          exact hA.2.2.1
        · rw [hrec.2.2.2.2.2.1]
          exact hA.2.2.2.1
        · intro h2
          rw [hrec.2.2.2.2.2.2 h2, hA.2.2.2.2 h2]
      | some v =>
        set s2 := setRecord s1 h
          { getRecord s1 h with
            object_states := some (assocInsert ((getRecord s1 h).object_states.getD []) object v) }
          with hs2def
        have hs2cb : ∀ h2, (getRecord s2 h2).callback = (getRecord s1 h2).callback :=
          fun h2 => getRecord_setRecord_callback s1 h h2 _ rfl
        have hrec := ih s2 (log ++ [⟨klass, Sym.newobj, none, some (some v)⟩])
          (show s2.enabled = false from hA.1)
        simp only [processNewItems, hc, hst]
        rw [← hs1def, ← hs2def]
        refine ⟨hrec.1, ?_, hrec.2.2.1, ?_, ?_, ?_, ?_⟩
        · rw [hrec.2.1, hexp]
          rw [expectedNewLog_congr β s1 s2 rest hs2cb, expectedNewLog_congr β s s1 rest hA.2.2.2.2]
          simp
        · rw [hrec.2.2.2.1]
          exact hA.2.1
        · rw [hrec.2.2.2.2.1]
          exact hA.2.2.1
        · rw [hrec.2.2.2.2.2.1]
          exact hA.2.2.2.1
        · intro h2
          rw [hrec.2.2.2.2.2.2 h2, hs2cb h2, hA.2.2.2.2 h2]

theorem processFreeItems_spec (β : CbEnv) (hβ : ∀ cb sy v, ((β cb sy v).ret).isSome = true)
    (items : List (Nat × Nat × Nat)) :
    ∀ (s : Capture) (log : List Inv), s.enabled = false →
    (processFreeItems β items s log).raised = false ∧
    (processFreeItems β items s log).log = log ++ expectedFreeLog β s items ∧
    (processFreeItems β items s log).capture.enabled = false ∧
    (processFreeItems β items s log).capture.running = s.running ∧
    (processFreeItems β items s log).capture.newobjQueue = s.newobjQueue ∧
    (processFreeItems β items s log).capture.freeobjQueue = s.freeobjQueue ∧
    (∀ h2, (getRecord (processFreeItems β items s log).capture h2).callback =
      (getRecord s h2).callback) := by
  induction items with
  | nil =>
    intro s log hs
    exact ⟨rfl, by simp [processFreeItems, expectedFreeLog], hs, rfl, rfl, rfl, fun _ => rfl⟩
  | cons it rest ih =>
    obtain ⟨klass, h, state⟩ := it
    intro s log hs
    cases hc : (getRecord s h).callback with
    | none =>
      have hrec := ih s log hs
      simp only [processFreeItems, hc]
      refine ⟨hrec.1, ?_, hrec.2.2.1, hrec.2.2.2.1, hrec.2.2.2.2.1, hrec.2.2.2.2.2.1,
        hrec.2.2.2.2.2.2⟩
      rw [hrec.2.1]
      have hexp : expectedFreeLog β s ((klass, h, state) :: rest) = expectedFreeLog β s rest := by
        simp [expectedFreeLog, List.filter_cons, hc]
      rw [hexp]
    | some cb =>
      obtain ⟨st, hst⟩ := Option.isSome_iff_exists.mp (hβ cb Sym.freeobj (some state))
      have hexp : expectedFreeLog β s ((klass, h, state) :: rest) =
          ⟨klass, Sym.freeobj, some state, (β cb Sym.freeobj (some state)).ret⟩ ::
            expectedFreeLog β s rest := by
        simp [expectedFreeLog, List.filter_cons, hc]
      rw [hst] at hexp
      have hA := applyAllocs_disabled (β cb Sym.freeobj (some state)).allocs s hs
      set s1 := applyAllocs s (β cb Sym.freeobj (some state)).allocs with hs1def
      have hrec := ih s1 (log ++ [⟨klass, Sym.freeobj, some state, some st⟩]) hA.1
      simp only [processFreeItems, hc, hst]
      rw [← hs1def]
      refine ⟨hrec.1, ?_, hrec.2.2.1, ?_, ?_, ?_, ?_⟩
      · rw [hrec.2.1, hexp, expectedFreeLog_congr β s s1 rest hA.2.2.2.2]
        simp
      · rw [hrec.2.2.2.1]
        exact hA.2.1
      · rw [hrec.2.2.2.2.1]
        exact hA.2.2.1
      · rw [hrec.2.2.2.2.2.1]
        exact hA.2.2.2.1
      · intro h2
        rw [hrec.2.2.2.2.2.2 h2, hA.2.2.2.2 h2]

theorem process_queues_spec (β : CbEnv) (hβ : ∀ cb sy v, ((β cb sy v).ret).isSome = true)
    (s : Capture) :
    (process_queues β s).raised = false ∧
    (process_queues β s).log =
      expectedNewLog β s s.newobjQueue ++ expectedFreeLog β s s.freeobjQueue ∧
    (process_queues β s).capture.newobjQueue = [] ∧
    (process_queues β s).capture.freeobjQueue = [] ∧
    (process_queues β s).capture.enabled = s.enabled ∧
    (process_queues β s).capture.running = s.running ∧
    (∀ h2, (getRecord (process_queues β s).capture h2).callback = (getRecord s h2).callback) := by
  have hsd : ({ s with enabled := false } : Capture).enabled = false := rfl
  have h1 := processNewItems_spec β hβ s.newobjQueue { s with enabled := false } [] hsd
  set r1 := processNewItems β s.newobjQueue { s with enabled := false } [] with hr1def
  have h2 := processFreeItems_spec β hβ r1.capture.freeobjQueue r1.capture r1.log h1.2.2.1
  set r2 := processFreeItems β r1.capture.freeobjQueue r1.capture r1.log with hr2def
  have hcb1 : ∀ hh, (getRecord r1.capture hh).callback =
      (getRecord ({ s with enabled := false } : Capture) hh).callback := h1.2.2.2.2.2.2
  have hcbS : ∀ hh, (getRecord ({ s with enabled := false } : Capture) hh).callback =
      (getRecord s hh).callback := fun _ => rfl
  simp only [process_queues]
  rw [← hr1def]
  rw [if_neg (by rw [h1.1]; exact Bool.false_ne_true)]
  rw [← hr2def]
  rw [if_neg (by rw [h2.1]; exact Bool.false_ne_true)]
  refine ⟨rfl, ?_, rfl, rfl, rfl, ?_, ?_⟩
  · rw [h2.2.1, h1.2.1]
    have e1 : expectedNewLog β ({ s with enabled := false } : Capture) s.newobjQueue =
        expectedNewLog β s s.newobjQueue :=
      expectedNewLog_congr β s _ _ hcbS
    have e2 : expectedFreeLog β r1.capture r1.capture.freeobjQueue =
        expectedFreeLog β s r1.capture.freeobjQueue := by
      refine expectedFreeLog_congr β s _ _ ?_
      intro hh
      rw [hcb1 hh, hcbS hh]
    have e3 : r1.capture.freeobjQueue = s.freeobjQueue := h1.2.2.2.2.2.1
    rw [e2, e3, e1]
    simp
  · rw [h2.2.2.2.1, h1.2.2.2.1]
  · intro hh
    have ha := h2.2.2.2.2.2.2 hh
    have hb := hcb1 hh
    simp only [getRecord] at ha hb ⊢
    rw [ha, hb]

/-- Claim C4: during a drain, queueing is suppressed (`enabled = false`), so
an allocation performed by a user callback is never enqueued and never
triggers the postponed job (no nested entry into queue processing); the
drain produces exactly one invocation per pre-drain queue item with a
callback — callback-performed allocations contribute none — and the
`enabled` flag is restored to its prior state when the drain finishes. -/
theorem C4_drain_isolation (β : CbEnv) (hβ : ∀ cb sy v, ((β cb sy v).ret).isSome = true) (s : Capture) :
    ((process_queues β s).capture.newobjQueue = [] ∧
      (process_queues β s).capture.freeobjQueue = [] ∧
      (process_queues β s).capture.enabled = s.enabled ∧
      (process_queues β s).raised = false ∧
      (process_queues β s).log.length =
        s.newobjQueue.countP (fun it => ((getRecord s it.2.1).callback).isSome) +
        s.freeobjQueue.countP (fun it => ((getRecord s it.2.1).callback).isSome)) ∧
    (∀ (s2 : Capture) (k o : Nat), s2.enabled = false →
      (newobj_handler s2 k o).capture.newobjQueue = s2.newobjQueue ∧
      (newobj_handler s2 k o).capture.freeobjQueue = s2.freeobjQueue ∧
      (newobj_handler s2 k o).triggered = false ∧
      (freeobj_handler s2 k o).capture.newobjQueue = s2.newobjQueue ∧
      (freeobj_handler s2 k o).capture.freeobjQueue = s2.freeobjQueue ∧
      (freeobj_handler s2 k o).triggered = false) := by
  have hq := process_queues_spec β hβ s
  constructor
  · refine ⟨hq.2.2.1, hq.2.2.2.1, hq.2.2.2.2.1, hq.1, ?_⟩
    rw [hq.2.1]
    simp [expectedNewLog, expectedFreeLog, List.countP_eq_length_filter]
  · intro s2 k o hs2
    have hn := newobj_handler_disabled s2 k o hs2
    have hf := freeobj_handler_disabled s2 k o hs2
    exact ⟨hn.2.2.1, hn.2.2.2.1, hn.2.2.2.2.1, hf.2.2.1, hf.2.2.2.1, hf.2.2.2.2.1⟩

/-- Claim C3: `stop()` on a running controller with pending queued events
(all enqueued for callbacks, as the handlers guarantee) synchronously
invokes exactly one callback per pending event, newobj items then freeobj
items each in queue order, before returning `true`; afterwards the
controller is stopped with empty queues, a further drain invokes nothing
and event delivery is inert; `stop()` when not running and `start()` when
already running are no-ops returning `false`. -/
theorem C3_stop_flushes_and_is_idempotent (β : CbEnv) (hβ : ∀ cb sy v, ((β cb sy v).ret).isSome = true) (s : Capture)
    (hrun : s.running = true)
    (hN : ∀ it ∈ s.newobjQueue, ((getRecord s it.2.1).callback).isSome = true)
    (hF : ∀ it ∈ s.freeobjQueue, ((getRecord s it.2.1).callback).isSome = true) :
    (stop β s).log.length = s.newobjQueue.length + s.freeobjQueue.length ∧
    (stop β s).log.map (fun i => (i.klass, i.sym)) =
      s.newobjQueue.map (fun it => (it.1, Sym.newobj)) ++
      s.freeobjQueue.map (fun it => (it.1, Sym.freeobj)) ∧
    (stop β s).raised = false ∧
    (stop β s).returned = some true ∧
    (stop β s).capture.running = false ∧
    (stop β s).capture.enabled = false ∧
    (stop β s).capture.newobjQueue = [] ∧
    (stop β s).capture.freeobjQueue = [] ∧
    (process_queues β (stop β s).capture).log = [] ∧
    (∀ k o, deliverNewobj (stop β s).capture k o = (stop β s).capture ∧
      deliverFreeobj (stop β s).capture k o = (stop β s).capture) ∧
    (∀ s2 : Capture, s2.running = false → stop β s2 = ⟨s2, [], false, some false⟩) ∧
    (∀ s2 : Capture, s2.running = true → start s2 = (false, s2)) := by
  have hq := process_queues_spec β hβ s
  have hstop : stop β s =
      ⟨{ (process_queues β s).capture with running := false, enabled := false },
        (process_queues β s).log, false, some true⟩ := by
    unfold stop
    rw [if_neg (by rw [hrun]; simp), if_neg (by rw [hq.1]; simp)]
  rw [hstop]
  have hlog : (process_queues β s).log =
      s.newobjQueue.map (fun it => (⟨it.1, Sym.newobj, none,
        (β (((getRecord s it.2.1).callback).getD 0) Sym.newobj none).ret⟩ : Inv)) ++
      s.freeobjQueue.map (fun it => (⟨it.1, Sym.freeobj, some it.2.2,
        (β (((getRecord s it.2.1).callback).getD 0) Sym.freeobj (some it.2.2)).ret⟩ : Inv)) := by
    rw [hq.2.1]
    unfold expectedNewLog expectedFreeLog
    rw [List.filter_eq_self.mpr hN, List.filter_eq_self.mpr hF]
  refine ⟨?_, ?_, rfl, rfl, rfl, rfl, hq.2.2.1, hq.2.2.2.1, ?_, ?_, ?_, ?_⟩
  · rw [hlog]
    simp
  · rw [hlog]
    simp only [List.map_append, List.map_map]
    rfl
  · have hq2 := process_queues_spec β hβ
      { (process_queues β s).capture with running := false, enabled := false }
    rw [hq2.2.1, hq.2.2.1, hq.2.2.2.1]
    rfl
  · intro k o
    constructor
    · simp [deliverNewobj]
    · simp [deliverFreeobj]
  · intro s2 hs2
    simp [stop, hs2]
  · intro s2 hs2
    simp [start, hs2]

/-- Claim C2 (amended): when the Allocated event of an object is processed
by an earlier drain (storing the callback's return value) and its Freed
event is enqueued afterwards, the next drain invokes the Freed callback
with exactly the previously returned value, strictly after the Allocated
invocation (which happened in the earlier drain); an Allocated and Freed
falling in the same inter-drain window instead drop the Freed callback
entirely (see the counterexample). -/
theorem C2_allocated_then_freed_across_drains (β : CbEnv) (cb kl o v n f : Nat) (rv : Option Nat)
    (hβ1 : β cb Sym.newobj none = ⟨[], some (some v)⟩)
    (hβ2 : β cb Sym.freeobj (some v) = ⟨[], some rv⟩) :
    let s0 : Capture := ⟨[⟨some cb, n, f, none⟩], [(kl, 0)], true, true, [], []⟩
    let s1 := (newobj_handler s0 kl o).capture
    let d1 := process_queues β s1
    let s2 := (freeobj_handler d1.capture kl o).capture
    let d2 := process_queues β s2
    d1.log = [⟨kl, Sym.newobj, none, some (some v)⟩] ∧
    d2.log = [⟨kl, Sym.freeobj, some v, some rv⟩] ∧
    d1.raised = false ∧
    d2.raised = false := by
  intro s0 s1 d1 s2 d2
  have hs1 : s1 = ⟨[⟨some cb, n + 1, f, none⟩], [(kl, 0)], true, true, [(kl, 0, o)], []⟩ := by
    simp [s1, s0, newobj_handler, stLookup, getRecord, setRecord]
  have hd1 : d1 = ⟨⟨[⟨some cb, n + 1, f, some [(o, v)]⟩], [(kl, 0)], true, true, [], []⟩,
      [⟨kl, Sym.newobj, none, some (some v)⟩], false⟩ := by
    simp only [d1, hs1]
    simp [process_queues, processNewItems, processFreeItems, applyAllocs, getRecord, setRecord,
      stLookup, assocInsert, hβ1]
  have hs2 : s2 = ⟨[⟨some cb, n + 1, f + 1, some []⟩], [(kl, 0)], true, true, [], [(kl, 0, v)]⟩ := by
    simp only [s2, hd1]
    simp [freeobj_handler, stLookup, getRecord, setRecord, assocDelete]
  have hd2 : d2 = ⟨⟨[⟨some cb, n + 1, f + 1, some []⟩], [(kl, 0)], true, true, [], []⟩,
      [⟨kl, Sym.freeobj, some v, some rv⟩], false⟩ := by
    simp only [d2, hs2]
    simp [process_queues, processNewItems, processFreeItems, applyAllocs, getRecord, setRecord,
      stLookup, hβ2]
  rw [hd1, hd2]
  exact ⟨rfl, rfl, rfl, rfl⟩

/-- Claim C5 (amended): processing an Allocated event stores the callback's
return value keyed by the object only when a callback is registered and the
value is non-nil; no sentinel is stored for a nil return or a missing
callback (in the latter case no invocation happens at all).  The Freed side
enqueues (and hence can invoke the callback) exactly when the capture is
enabled, the record has a callback, and a stored state exists for the
object. -/
theorem C5_store_rule_and_freed_gating (β : CbEnv) (cb kl o n f : Nat) (run en : Bool) (st0 : Option (List (Nat × Nat)))
    (rv : Option Nat)
    (hβ1 : β cb Sym.newobj none = ⟨[], some rv⟩) :
    let s0 : Capture := ⟨[⟨some cb, n, f, st0⟩], [(kl, 0)], run, en, [], []⟩
    let d := processNewItems β [(kl, 0, o)] s0 []
    let s0n : Capture := ⟨[⟨none, n, f, st0⟩], [(kl, 0)], run, en, [], []⟩
    let dn := processNewItems β [(kl, 0, o)] s0n []
    d.raised = false ∧
    d.log = [⟨kl, Sym.newobj, none, some rv⟩] ∧
    (getRecord d.capture 0).object_states =
      (match rv with
        | some w => some (assocInsert (st0.getD []) o w)
        | none => st0) ∧
    dn.log = [] ∧
    (getRecord dn.capture 0).object_states = st0 ∧
    (∀ (s2 : Capture) (k2 o2 : Nat),
      (freeobj_handler s2 k2 o2).capture.freeobjQueue.length = s2.freeobjQueue.length + 1 ↔
        (s2.enabled = true ∧ ∃ h, stLookup s2.tracked k2 = some h ∧
          ((getRecord s2 h).callback).isSome = true ∧
          ((getRecord s2 h).object_states).isSome = true ∧
          ((assocDelete ((getRecord s2 h).object_states.getD []) o2).1).isSome = true)) := by
  intro s0 d s0n dn
  refine ⟨?_, ?_, ?_, ?_, ?_, ?_⟩
  · cases rv with
    | none => simp [d, s0, processNewItems, applyAllocs, getRecord, stLookup, hβ1]
    | some w => simp [d, s0, processNewItems, applyAllocs, getRecord, setRecord, stLookup, hβ1]
  · cases rv with
    | none => simp [d, s0, processNewItems, applyAllocs, getRecord, stLookup, hβ1]
    | some w => simp [d, s0, processNewItems, applyAllocs, getRecord, setRecord, stLookup, hβ1]
  · cases rv with
    | none => simp [d, s0, processNewItems, applyAllocs, getRecord, stLookup, hβ1]
    | some w =>
      have hall : (β cb Sym.newobj none).allocs = [] := by rw [hβ1]
      have hret : (β cb Sym.newobj none).ret = some (some w) := by rw [hβ1]
      simp [d, s0, processNewItems, applyAllocs, getRecord, setRecord, stLookup,
        assocInsert, hβ1]
      rw [hall]
      rfl
  · simp [dn, s0n, processNewItems, getRecord]
  · simp [dn, s0n, processNewItems, getRecord]
  · intro s2 k2 o2
    unfold freeobj_handler
    cases hl : stLookup s2.tracked k2 with
    | none =>
      simp [hl]
    | some h =>
      by_cases hcond : s2.enabled = true ∧ ((getRecord s2 h).callback).isSome = true ∧
          ((getRecord s2 h).object_states).isSome = true
      · cases hdel : assocDelete ((getRecord s2 h).object_states.getD []) o2 with
        | mk found rest =>
          cases found with
          | none =>
            simp [hl, hcond, hdel, setRecord]
          | some stv =>
            simp [hl, hcond, hdel, setRecord]
      · simp only [hl, setRecord]
        rw [if_neg (by exact fun hx => hcond ⟨hx.1, hx.2.1, hx.2.2⟩)]
        simp
        intro ha hb hc
        exact (hcond ⟨ha, hb, hc⟩).elim

/-- Claim C6 (amended): the global tagged event queue (events.c) is strict
FIFO — enqueue appends, and a drain processes exactly the snapshot of
observed events in observation order; the per-instance drain (capture.c)
replays FIFO within each kind but processes all Allocated events before all
Freed events, so cross-kind observation order is not preserved there (see
the counterexample). -/
theorem C6_fifo_global_and_within_kind (hproc : GEvent → Bool) (e : Events) (ev : GEvent)
    (β : CbEnv) (hβ : ∀ cb sy v, ((β cb sy v).ret).isSome = true) (s : Capture) :
    (Events_enqueue e ev).1.available = e.available ++ [ev] ∧
    (Events_process_queue hproc e).2 = e.available ∧
    (process_queues β s).log =
      expectedNewLog β s s.newobjQueue ++ expectedFreeLog β s s.freeobjQueue := by
  refine ⟨rfl, ?_, (process_queues_spec β hβ s).2.1⟩
  simp [Events_process_queue, gProcessLoop_spec]

/-- Witness for C2: the amended cross-drain round trip at concrete values
(callback id 0, class 1, object 42, stored state 7, freeobj returning
`Qnil`). -/
theorem C2_allocated_then_freed_witness :
    let s0 : Capture := ⟨[⟨some 0, 0, 0, none⟩], [(1, 0)], true, true, [], []⟩
    let s1 := (newobj_handler s0 1 42).capture
    let d1 := process_queues betaC2W s1
    let s2 := (freeobj_handler d1.capture 1 42).capture
    let d2 := process_queues betaC2W s2
    d1.log = [⟨1, Sym.newobj, none, some (some 7)⟩] ∧
    d2.log = [⟨1, Sym.freeobj, some 7, some none⟩] ∧
    d1.raised = false ∧
    d2.raised = false :=
  C2_allocated_then_freed_across_drains betaC2W 0 1 42 7 0 0 none rfl rfl

/-- Witness for C3: stopping a running capture with one pending Allocated
and one pending Freed event at concrete values. -/
theorem C3_stop_flushes_witness :
    (stop betaNil c3State).log.length =
      c3State.newobjQueue.length + c3State.freeobjQueue.length ∧
    (stop betaNil c3State).log.map (fun i => (i.klass, i.sym)) =
      c3State.newobjQueue.map (fun it => (it.1, Sym.newobj)) ++
      c3State.freeobjQueue.map (fun it => (it.1, Sym.freeobj)) ∧
    (stop betaNil c3State).raised = false ∧
    (stop betaNil c3State).returned = some true ∧
    (stop betaNil c3State).capture.running = false ∧
    (stop betaNil c3State).capture.enabled = false ∧
    (stop betaNil c3State).capture.newobjQueue = [] ∧
    (stop betaNil c3State).capture.freeobjQueue = [] ∧
    (process_queues betaNil (stop betaNil c3State).capture).log = [] ∧
    (∀ k o, deliverNewobj (stop betaNil c3State).capture k o = (stop betaNil c3State).capture ∧
      deliverFreeobj (stop betaNil c3State).capture k o = (stop betaNil c3State).capture) ∧
    (∀ s2 : Capture, s2.running = false → stop betaNil s2 = ⟨s2, [], false, some false⟩) ∧
    (∀ s2 : Capture, s2.running = true → start s2 = (false, s2)) :=
  C3_stop_flushes_and_is_idempotent betaNil (fun _ _ _ => rfl) c3State rfl
    (by decide) (by decide)

/-- Witness for C4: drain isolation at a concrete pending state. -/
theorem C4_drain_isolation_witness :
    ((process_queues betaNil c3State).capture.newobjQueue = [] ∧
      (process_queues betaNil c3State).capture.freeobjQueue = [] ∧
      (process_queues betaNil c3State).capture.enabled = c3State.enabled ∧
      (process_queues betaNil c3State).raised = false ∧
      (process_queues betaNil c3State).log.length =
        c3State.newobjQueue.countP (fun it => ((getRecord c3State it.2.1).callback).isSome) +
        c3State.freeobjQueue.countP (fun it => ((getRecord c3State it.2.1).callback).isSome)) ∧
    (∀ (s2 : Capture) (k o : Nat), s2.enabled = false →
      (newobj_handler s2 k o).capture.newobjQueue = s2.newobjQueue ∧
      (newobj_handler s2 k o).capture.freeobjQueue = s2.freeobjQueue ∧
      (newobj_handler s2 k o).triggered = false ∧
      (freeobj_handler s2 k o).capture.newobjQueue = s2.newobjQueue ∧
      (freeobj_handler s2 k o).capture.freeobjQueue = s2.freeobjQueue ∧
      (freeobj_handler s2 k o).triggered = false) :=
  C4_drain_isolation betaNil (fun _ _ _ => rfl) c3State

/-- Witness for C5: the amended store rule at concrete values (class 1,
object 42, callback returning state 9, initially empty state table). -/
theorem C5_store_rule_witness :
    let s0 : Capture := ⟨[⟨some 0, 3, 1, none⟩], [(1, 0)], true, true, [], []⟩
    let d := processNewItems betaC2W [(1, 0, 42)] s0 []
    let s0n : Capture := ⟨[⟨none, 3, 1, none⟩], [(1, 0)], true, true, [], []⟩
    let dn := processNewItems betaC2W [(1, 0, 42)] s0n []
    d.raised = false ∧
    d.log = [⟨1, Sym.newobj, none, some (some 7)⟩] ∧
    (getRecord d.capture 0).object_states =
      (match (some 7 : Option Nat) with
        | some w => some (assocInsert ((none : Option (List (Nat × Nat))).getD []) 42 w)
        | none => (none : Option (List (Nat × Nat)))) ∧
    dn.log = [] ∧
    (getRecord dn.capture 0).object_states = none ∧
    (∀ (s2 : Capture) (k2 o2 : Nat),
      (freeobj_handler s2 k2 o2).capture.freeobjQueue.length = s2.freeobjQueue.length + 1 ↔
        (s2.enabled = true ∧ ∃ h, stLookup s2.tracked k2 = some h ∧
          ((getRecord s2 h).callback).isSome = true ∧
          ((getRecord s2 h).object_states).isSome = true ∧
          ((assocDelete ((getRecord s2 h).object_states.getD []) o2).1).isSome = true)) :=
  C5_store_rule_and_freed_gating betaC2W 0 1 42 3 1 true true none (some 7) rfl

/-- Witness for C6: the amended ordering statement at a concrete event
queue and capture. -/
theorem C6_fifo_witness :
    (Events_enqueue ⟨[⟨EType.typeFreeobj, 0, 1, 42⟩], [], 0, false⟩
        ⟨EType.typeNewobj, 0, 1, 43⟩).1.available =
      ([⟨EType.typeFreeobj, 0, 1, 42⟩] : List GEvent) ++ [⟨EType.typeNewobj, 0, 1, 43⟩] ∧
    (Events_process_queue (fun _ => false)
      ⟨[⟨EType.typeFreeobj, 0, 1, 42⟩], [], 0, false⟩).2 = [⟨EType.typeFreeobj, 0, 1, 42⟩] ∧
    (process_queues betaNil c3State).log =
      expectedNewLog betaNil c3State c3State.newobjQueue ++
      expectedFreeLog betaNil c3State c3State.freeobjQueue :=
  C6_fifo_global_and_within_kind (fun _ => false) ⟨[⟨EType.typeFreeobj, 0, 1, 42⟩], [], 0, false⟩
    ⟨EType.typeNewobj, 0, 1, 43⟩ betaNil (fun _ _ _ => rfl) c3State

/-- Claim C7: the NEWOBJ handler increments the tracked class's `new_count`
unconditionally — even while paused (`enabled = false`, as during a drain)
and even for a class seen for the first time — while the enqueue-for-
callback step (and the job trigger) happens exactly when the class is
tracked, queueing is enabled and a callback is registered. -/
theorem C7_new_count_unconditional (s : Capture) (k o : Nat)
    (hwf : ∀ h, stLookup s.tracked k = some h → h < s.records.length) :
    newCountOf (newobj_handler s k o).capture k = newCountOf s k + 1 ∧
    (newobj_handler s k o).capture.newobjQueue =
      (if (stLookup s.tracked k).isSome ∧ s.enabled = true ∧ (callbackOf s k).isSome then
        s.newobjQueue ++ [(k, (stLookup s.tracked k).getD 0, o)]
      else s.newobjQueue) ∧
    (newobj_handler s k o).capture.freeobjQueue = s.freeobjQueue ∧
    (newobj_handler s k o).triggered =
      ((stLookup s.tracked k).isSome ∧ s.enabled = true ∧ (callbackOf s k).isSome : Bool) := by
  unfold newobj_handler newCountOf callbackOf
  cases hl : stLookup s.tracked k with
  | none =>
    have hf : s.tracked.find? (fun p => p.1 = k) = none := by
      unfold stLookup at hl
      exact Option.map_eq_none.mp hl
    simp only [hl]
    refine ⟨?_, by simp, by simp, by simp⟩
    simp [stLookup, List.find?_append, hf, getRecord]
  | some h =>
    have hlt : h < s.records.length := hwf h hl
    by_cases he : s.enabled = true ∧ ((getRecord s h).callback).isSome = true
    · simp only [setRecord, getRecord] at he ⊢
      simp [he, hl, List.getElem?_set_self hlt]
    · simp only [setRecord, getRecord] at he ⊢
      simp [he, hl, List.getElem?_set_self hlt]

/-- Witness for C7: a paused capture (running, queueing disabled) still
counts the allocation; nothing is queued and the job is not triggered. -/
theorem C7_new_count_witness :
    newCountOf (newobj_handler c7State 1 9).capture 1 = newCountOf c7State 1 + 1 ∧
    (newobj_handler c7State 1 9).capture.newobjQueue =
      (if (stLookup c7State.tracked 1).isSome ∧ c7State.enabled = true ∧
          (callbackOf c7State 1).isSome then
        c7State.newobjQueue ++ [(1, (stLookup c7State.tracked 1).getD 0, 9)]
      else c7State.newobjQueue) ∧
    (newobj_handler c7State 1 9).capture.freeobjQueue = c7State.freeobjQueue ∧
    (newobj_handler c7State 1 9).triggered =
      ((stLookup c7State.tracked 1).isSome ∧ c7State.enabled = true ∧
        (callbackOf c7State 1).isSome : Bool) :=
  C7_new_count_unconditional c7State 1 9
    (by intro h hh; simp [stLookup, c7State] at hh; simp [c7State, hh])

theorem stepN_succ (c index m : Nat) :
    stepN c index (m + 1) = stepN c ((index + 1) % c) m := rfl

theorem stepN_mod (c : Nat) (hc : 0 < c) :
    ∀ (m index : Nat), index < c → stepN c index m = (index + m) % c := by
  intro m
  induction m with
  | zero =>
    intro index hi
    simp [stepN, Nat.mod_eq_of_lt hi]
  | succ m ih =>
    intro index hi
    rw [stepN_succ, ih ((index + 1) % c) (Nat.mod_lt _ hc)]
    rw [Nat.mod_add_mod]
    congr 1
    omega

theorem stepN_lt (c : Nat) (hc : 0 < c) (index m : Nat) (hi : index < c) :
    stepN c index m < c := by
  rw [stepN_mod c hc m index hi]
  exact Nat.mod_lt _ hc

theorem addModInj (c x a b : Nat) (ha : a < c) (hb : b < c)
    (h : (x + a) % c = (x + b) % c) : a = b := by
  have h2 : x + a ≡ x + b [MOD c] := h
  have h3 : a % c = b % c := Nat.ModEq.add_left_cancel' x h2
  rw [Nat.mod_eq_of_lt ha, Nat.mod_eq_of_lt hb] at h3
  exact h3



theorem findEntryAux_notfound (entries : List Entry) (c k : Nat)
    (hnk : ∀ i, (slotAt entries i).object ≠ k) :
    ∀ (fuel index pc : Nat), (findEntryAux entries c k fuel index pc).1 = false := by
  intro fuel
  induction fuel with
  | zero => intro index pc; rfl
  | succ fuel ih =>
    intro index pc
    unfold findEntryAux
    split
    · rfl
    · split
      · rfl
      · split
        · rename_i hfound
          exact absurd hfound.2 (hnk index)
        · exact ih _ _

theorem findEntryAux_found (entries : List Entry) (c k : Nat)
    (hkE : k ≠ EMPTY) (hkT : k ≠ TOMBSTONE) :
    ∀ (m fuel index pc : Nat), m < fuel → pc + fuel ≤ MAX_PROBE_LENGTH →
    (slotAt entries (stepN c index m)).object = k →
    (∀ m2, m2 < m → (slotAt entries (stepN c index m2)).object ≠ EMPTY ∧
      (slotAt entries (stepN c index m2)).object ≠ k) →
    findEntryAux entries c k fuel index pc = (true, stepN c index m) := by
  intro m
  induction m with
  | zero =>
    intro fuel index pc hmf hcap hk hocc
    obtain ⟨fuel, rfl⟩ : ∃ f, fuel = f + 1 := ⟨fuel - 1, by omega⟩
    unfold findEntryAux
    rw [if_neg (by omega)]
    simp only [stepN] at hk
    rw [if_neg (by rw [hk]; exact hkE)]
    rw [if_pos ⟨by rw [hk]; exact hkT, hk⟩]
    rfl
  | succ m ih =>
    intro fuel index pc hmf hcap hk hocc
    obtain ⟨fuel, rfl⟩ : ∃ f, fuel = f + 1 := ⟨fuel - 1, by omega⟩
    have h0 := hocc 0 (Nat.succ_pos m)
    simp only [stepN] at h0
    unfold findEntryAux
    rw [if_neg (by omega)]
    rw [if_neg h0.1]
    rw [if_neg (by intro hx; exact h0.2 hx.2)]
    rw [stepN_succ]
    exact ih fuel ((index + 1) % c) (pc + 1) (by omega) (by omega) hk
      (fun m2 hm2 => hocc (m2 + 1) (by omega))

theorem findInsertSlotAux_ft (entries : List Entry) (c k : Nat)
    (hnk : ∀ i, (slotAt entries i).object ≠ k) :
    ∀ (fuel index pc v : Nat),
    findInsertSlotAux entries c k fuel index pc (some v) = (false, v) := by
  intro fuel
  induction fuel with
  | zero => intro index pc v; rfl
  | succ fuel ih =>
    intro index pc v
    unfold findInsertSlotAux
    split
    · rfl
    · split
      · rfl
      · split
        · exact ih _ _ _
        · split
          · rename_i hne hk
            exact absurd hk (hnk index)
          · exact ih _ _ _

theorem findInsertSlotAux_first_free (entries : List Entry) (c k : Nat)
    (hnk : ∀ i, (slotAt entries i).object ≠ k) :
    ∀ (m fuel index pc : Nat), m < fuel → pc + fuel ≤ MAX_PROBE_LENGTH →
    ((slotAt entries (stepN c index m)).object = EMPTY ∨
      (slotAt entries (stepN c index m)).object = TOMBSTONE) →
    (∀ m2, m2 < m → (slotAt entries (stepN c index m2)).object ≠ EMPTY ∧
      (slotAt entries (stepN c index m2)).object ≠ TOMBSTONE) →
    findInsertSlotAux entries c k fuel index pc none = (false, stepN c index m) := by
  intro m
  induction m with
  | zero =>
    intro fuel index pc hmf hcap hfree hocc
    obtain ⟨fuel, rfl⟩ : ∃ f, fuel = f + 1 := ⟨fuel - 1, by omega⟩
    simp only [stepN] at hfree ⊢
    unfold findInsertSlotAux
    rw [if_neg (by omega)]
    cases hfree with
    | inl hE => rw [if_pos hE]; rfl
    | inr hT =>
      rw [if_neg (by rw [hT]; decide), if_pos hT]
      exact findInsertSlotAux_ft entries c k hnk _ _ _ _
  | succ m ih =>
    intro fuel index pc hmf hcap hfree hocc
    obtain ⟨fuel, rfl⟩ : ∃ f, fuel = f + 1 := ⟨fuel - 1, by omega⟩
    have h0 := hocc 0 (Nat.succ_pos m)
    simp only [stepN] at h0
    unfold findInsertSlotAux
    rw [if_neg (by omega)]
    rw [if_neg h0.1, if_neg h0.2, if_neg (hnk index)]
    rw [stepN_succ]
    exact ih fuel ((index + 1) % c) (pc + 1) (by omega) (by omega) hfree
      (fun m2 hm2 => hocc (m2 + 1) (by omega))

theorem findInsertSlotAux_found (entries : List Entry) (c k : Nat)
    (hkE : k ≠ EMPTY) (hkT : k ≠ TOMBSTONE) :
    ∀ (m fuel index pc : Nat) (ft : Option Nat), m < fuel → pc + fuel ≤ MAX_PROBE_LENGTH →
    (slotAt entries (stepN c index m)).object = k →
    (∀ m2, m2 < m → (slotAt entries (stepN c index m2)).object ≠ EMPTY ∧
      (slotAt entries (stepN c index m2)).object ≠ k) →
    findInsertSlotAux entries c k fuel index pc ft = (true, stepN c index m) := by
  intro m
  induction m with
  | zero =>
    intro fuel index pc ft hmf hcap hk hocc
    obtain ⟨fuel, rfl⟩ : ∃ f, fuel = f + 1 := ⟨fuel - 1, by omega⟩
    simp only [stepN] at hk ⊢
    unfold findInsertSlotAux
    rw [if_neg (by omega)]
    rw [if_neg (by rw [hk]; exact hkE)]
    rw [if_neg (by rw [hk]; exact hkT)]
    rw [if_pos hk]
  | succ m ih =>
    intro fuel index pc ft hmf hcap hk hocc
    obtain ⟨fuel, rfl⟩ : ∃ f, fuel = f + 1 := ⟨fuel - 1, by omega⟩
    have h0 := hocc 0 (Nat.succ_pos m)
    simp only [stepN] at h0
    unfold findInsertSlotAux
    rw [if_neg (by omega)]
    rw [if_neg h0.1]
    by_cases hT : (slotAt entries index).object = TOMBSTONE
    · rw [if_pos hT, stepN_succ]
      exact ih fuel ((index + 1) % c) (pc + 1) _ (by omega) (by omega) hk
        (fun m2 hm2 => hocc (m2 + 1) (by omega))
    · rw [if_neg hT, if_neg h0.2, stepN_succ]
      exact ih fuel ((index + 1) % c) (pc + 1) _ (by omega) (by omega) hk
        (fun m2 hm2 => hocc (m2 + 1) (by omega))



theorem slotAt_oor (l : List Entry) (i : Nat) (hge : l.length ≤ i) :
    slotAt l i = Entry.zero := by
  unfold slotAt
  have hn : l[i]? = none := List.getElem?_eq_none hge
  simp [hn]

theorem slotAt_set (l : List Entry) (h h2 : Nat) (r : Entry) :
    slotAt (l.set h r) h2 = if h = h2 ∧ h < l.length then r else slotAt l h2 := by
  unfold slotAt
  simp only [List.getElem?_set]
  by_cases he : h = h2
  · subst he
    by_cases hlt : h < l.length
    · simp [hlt]
    · simp [hlt, List.getElem?_eq_none (show l.length ≤ h by omega)]
  · simp [he]

theorem hash_lt (k c : Nat) (hc : 0 < c) : hash_object k c < c := by
  unfold hash_object
  exact Nat.mod_lt _ hc



/-- Claim C9: inserting a fresh valid handle into a well-formed,
under-load-factor table and then deleting it makes a subsequent lookup
return not-found, turns the slot into a Tombstone with the occupied count
decremented and the tombstone count incremented, and a later insert of the
handle reuses exactly that tombstone slot — tombstone count back down,
capacity unchanged. -/
theorem C9_insert_delete_tombstone_reuse (t : Table) (k : Nat)
    (Hlen : t.entries.length = t.capacity)
    (Hc : 0 < t.capacity)
    (Hcap : t.capacity ≤ MAX_PROBE_LENGTH)
    (Hk0 : k ≠ EMPTY) (HkT : k ≠ TOMBSTONE)
    (Habs : ∀ i, i < t.capacity → (slotAt t.entries i).object ≠ k)
    (Hempty : ∃ i, i < t.capacity ∧ (slotAt t.entries i).object = EMPTY)
    (Hload : 2 * (t.count + t.tombstones + 1) ≤ t.capacity) :
    Object_Table_lookup (Object_Table_delete (Object_Table_insert t k).1 k) k = none ∧
    (slotAt (Object_Table_delete (Object_Table_insert t k).1 k).entries
      (Object_Table_insert t k).2).object = TOMBSTONE ∧
    (Object_Table_delete (Object_Table_insert t k).1 k).count + 1 =
      (Object_Table_insert t k).1.count ∧
    (Object_Table_delete (Object_Table_insert t k).1 k).tombstones =
      (Object_Table_insert t k).1.tombstones + 1 ∧
    (Object_Table_insert (Object_Table_delete (Object_Table_insert t k).1 k) k).2 =
      (Object_Table_insert t k).2 ∧
    (Object_Table_insert (Object_Table_delete (Object_Table_insert t k).1 k) k).1.capacity =
      t.capacity ∧
    (Object_Table_insert (Object_Table_delete (Object_Table_insert t k).1 k) k).1.tombstones + 1 =
      (Object_Table_delete (Object_Table_insert t k).1 k).tombstones ∧
    (slotAt (Object_Table_insert (Object_Table_delete (Object_Table_insert t k).1 k) k).1.entries
      (Object_Table_insert t k).2).object = k := by
  have hstart : hash_object k t.capacity < t.capacity := hash_lt k t.capacity Hc
  have hnk : ∀ i, (slotAt t.entries i).object ≠ k := by
    intro i
    by_cases hi : i < t.capacity
    · exact Habs i hi
    · rw [slotAt_oor t.entries i (by omega)]
      exact fun hx => Hk0 hx.symm
  have hexb : ∃ m, m < t.capacity ∧
      ((slotAt t.entries (stepN t.capacity (hash_object k t.capacity) m)).object = EMPTY ∨
       (slotAt t.entries (stepN t.capacity (hash_object k t.capacity) m)).object = TOMBSTONE) := by
    obtain ⟨i0, hi0, hE⟩ := Hempty
    refine ⟨(i0 + t.capacity - hash_object k t.capacity) % t.capacity, Nat.mod_lt _ Hc,
      Or.inl ?_⟩
    rw [stepN_mod t.capacity Hc _ _ hstart]
    have h1 : (hash_object k t.capacity +
        (i0 + t.capacity - hash_object k t.capacity) % t.capacity) % t.capacity =
        (hash_object k t.capacity + (i0 + t.capacity - hash_object k t.capacity)) % t.capacity := by
      conv_lhs => rw [Nat.add_mod, Nat.mod_mod, ← Nat.add_mod]
    rw [h1]
    have h2 : hash_object k t.capacity + (i0 + t.capacity - hash_object k t.capacity) =
        i0 + t.capacity := by omega
    rw [h2, Nat.add_mod_right, Nat.mod_eq_of_lt hi0]
    exact hE
  have hex : ∃ m,
      (slotAt t.entries (stepN t.capacity (hash_object k t.capacity) m)).object = EMPTY ∨
      (slotAt t.entries (stepN t.capacity (hash_object k t.capacity) m)).object = TOMBSTONE :=
    hexb.imp (fun m hm => hm.2)
  obtain ⟨mw, hmw, hPw⟩ := hexb
  set m0 := Nat.find hex with hm0def
  have hP0 := Nat.find_spec hex
  have hm0lt : m0 < t.capacity := lt_of_le_of_lt (Nat.find_min' hex hPw) hmw
  have hocc : ∀ m2, m2 < m0 →
      (slotAt t.entries (stepN t.capacity (hash_object k t.capacity) m2)).object ≠ EMPTY ∧
      (slotAt t.entries (stepN t.capacity (hash_object k t.capacity) m2)).object ≠ TOMBSTONE := by
    intro m2 hm2
    have := Nat.find_min hex hm2
    push_neg at this
    exact this
  set i := stepN t.capacity (hash_object k t.capacity) m0 with hidef
  have hilt : i < t.capacity := stepN_lt t.capacity Hc _ m0 hstart
  have hstep_ne : ∀ m2, m2 < m0 → stepN t.capacity (hash_object k t.capacity) m2 ≠ i := by
    intro m2 hm2 hEq
    rw [hidef, stepN_mod t.capacity Hc _ _ hstart, stepN_mod t.capacity Hc _ _ hstart] at hEq
    exact absurd (addModInj t.capacity (hash_object k t.capacity) m2 m0
      (by omega) hm0lt hEq) (by omega)
  have hnores : ¬(2 * (t.count + t.tombstones) > t.capacity) := by omega
  have hfis : find_insert_slot t k = (false, i) := by
    unfold find_insert_slot
    exact findInsertSlotAux_first_free t.entries t.capacity k hnk m0 t.capacity _ 0 hm0lt
      (by omega) hP0 hocc
  have hins : Object_Table_insert t k =
      ({ t with
          tombstones := if (slotAt t.entries i).object = TOMBSTONE then t.tombstones - 1
            else t.tombstones,
          count := t.count + 1,
          entries := t.entries.set i ⟨k, 0, 0, (slotAt t.entries i).allocations⟩ }, i) := by
    simp only [Object_Table_insert]
    rw [if_neg hnores, hfis]
    simp
  have hins1 : (Object_Table_insert t k).1 =
      { t with
          tombstones := if (slotAt t.entries i).object = TOMBSTONE then t.tombstones - 1
            else t.tombstones,
          count := t.count + 1,
          entries := t.entries.set i ⟨k, 0, 0, (slotAt t.entries i).allocations⟩ } := by rw [hins]
  have hinsi : (Object_Table_insert t k).2 = i := by rw [hins]
  -- lookup after insert finds k exactly at slot i
  have hiltL : i < t.entries.length := by omega
  have hslot1i : (slotAt (t.entries.set i ⟨k, 0, 0, (slotAt t.entries i).allocations⟩) i).object = k := by
    rw [slotAt_set, if_pos ⟨rfl, hiltL⟩]
  have hslot1_old : ∀ m2, m2 < m0 →
      slotAt (t.entries.set i ⟨k, 0, 0, (slotAt t.entries i).allocations⟩) (stepN t.capacity (hash_object k t.capacity) m2) =
      slotAt t.entries (stepN t.capacity (hash_object k t.capacity) m2) := by
    intro m2 hm2
    rw [slotAt_set, if_neg]
    rintro ⟨he, _⟩
    exact hstep_ne m2 hm2 he.symm
  have hfe1 : find_entry (t.entries.set i ⟨k, 0, 0, (slotAt t.entries i).allocations⟩) t.capacity k = (true, i) := by
    unfold find_entry
    exact findEntryAux_found _ t.capacity k Hk0 HkT m0 t.capacity _ 0 hm0lt (by omega) hslot1i
      (fun m2 hm2 => by
        rw [hslot1_old m2 hm2]
        exact ⟨(hocc m2 hm2).1, hnk _⟩)
  -- the delete tombstones slot i
  have hdel : Object_Table_delete (Object_Table_insert t k).1 k =
      { t with
          tombstones := (if (slotAt t.entries i).object = TOMBSTONE then t.tombstones - 1
            else t.tombstones) + 1,
          count := t.count + 1 - 1,
          entries := t.entries.set i ⟨TOMBSTONE, 0, 0, (slotAt t.entries i).allocations⟩ } := by
    rw [hins1]
    simp only [Object_Table_delete]
    rw [show find_entry (t.entries.set i ⟨k, 0, 0, (slotAt t.entries i).allocations⟩) t.capacity k = (true, i) from hfe1]
    simp [List.set_set, slotAt_set, hiltL]
  -- lookup after delete misses
  have hnk2 : ∀ i2, (slotAt (t.entries.set i ⟨TOMBSTONE, 0, 0, (slotAt t.entries i).allocations⟩) i2).object ≠ k := by
    intro i2
    rw [slotAt_set]
    split
    · exact fun hx => HkT hx.symm
    · exact hnk i2
  have hlook : Object_Table_lookup (Object_Table_delete (Object_Table_insert t k).1 k) k =
      none := by
    rw [hdel]
    simp only [Object_Table_lookup]
    have hf2 := findEntryAux_notfound (t.entries.set i ⟨TOMBSTONE, 0, 0, (slotAt t.entries i).allocations⟩) t.capacity k hnk2
      t.capacity (hash_object k t.capacity) 0
    unfold find_entry
    simp [hf2]
  have hslot2i : (slotAt (t.entries.set i ⟨TOMBSTONE, 0, 0, (slotAt t.entries i).allocations⟩) i).object = TOMBSTONE := by
    rw [slotAt_set, if_pos ⟨rfl, hiltL⟩]
  -- the second insert reuses the tombstone at i
  have htomb1 : (if (slotAt t.entries i).object = TOMBSTONE then t.tombstones - 1
      else t.tombstones) ≤ t.tombstones := by
    split
    · omega
    · omega
  have hocc2 : ∀ m2, m2 < m0 →
      (slotAt (t.entries.set i ⟨TOMBSTONE, 0, 0, (slotAt t.entries i).allocations⟩)
        (stepN t.capacity (hash_object k t.capacity) m2)).object ≠ EMPTY ∧
      (slotAt (t.entries.set i ⟨TOMBSTONE, 0, 0, (slotAt t.entries i).allocations⟩)
        (stepN t.capacity (hash_object k t.capacity) m2)).object ≠ TOMBSTONE := by
    intro m2 hm2
    rw [slotAt_set, if_neg]
    · exact hocc m2 hm2
    · rintro ⟨he, _⟩
      exact hstep_ne m2 hm2 he.symm
  have hfis2 : find_insert_slot (Object_Table_delete (Object_Table_insert t k).1 k) k =
      (false, i) := by
    rw [hdel]
    unfold find_insert_slot
    exact findInsertSlotAux_first_free _ t.capacity k hnk2 m0 t.capacity _ 0 hm0lt (by omega)
      (Or.inr hslot2i) hocc2
  have hnores2 : ¬(2 * ((Object_Table_delete (Object_Table_insert t k).1 k).count +
      (Object_Table_delete (Object_Table_insert t k).1 k).tombstones) >
      (Object_Table_delete (Object_Table_insert t k).1 k).capacity) := by
    rw [hdel]
    show ¬(2 * ((t.count + 1 - 1) +
      ((if (slotAt t.entries i).object = TOMBSTONE then t.tombstones - 1
        else t.tombstones) + 1)) > t.capacity)
    omega
  have hfis2lit : find_insert_slot
      ({ t with
          tombstones := (if (slotAt t.entries i).object = TOMBSTONE then t.tombstones - 1
            else t.tombstones) + 1,
          count := t.count + 1 - 1,
          entries := t.entries.set i ⟨TOMBSTONE, 0, 0, (slotAt t.entries i).allocations⟩ } : Table) k = (false, i) := by
    rw [← hdel]
    exact hfis2
  have hnores2lit : ¬(2 * ((t.count + 1 - 1) +
      ((if (slotAt t.entries i).object = TOMBSTONE then t.tombstones - 1
        else t.tombstones) + 1)) > t.capacity) := by omega
  have hins2 : Object_Table_insert (Object_Table_delete (Object_Table_insert t k).1 k) k =
      ({ t with
          tombstones := (if (slotAt t.entries i).object = TOMBSTONE then t.tombstones - 1
            else t.tombstones) + 1 - 1,
          count := t.count + 1 - 1 + 1,
          entries := (t.entries.set i ⟨TOMBSTONE, 0, 0, (slotAt t.entries i).allocations⟩).set i ⟨k, 0, 0, (slotAt t.entries i).allocations⟩ }, i) := by
    rw [hdel]
    simp only [Object_Table_insert]
    rw [if_neg hnores2lit, hfis2lit]
    simp [hslot2i, List.set_set, slotAt_set, hiltL]
  refine ⟨hlook, ?_, ?_, ?_, ?_, ?_, ?_, ?_⟩
  · rw [hdel, hinsi]
    exact hslot2i
  · rw [hdel, hins1]
    show t.count + 1 - 1 + 1 = t.count + 1
    omega
  · rw [hdel, hins1]
  · rw [hins2, hinsi]
  · rw [hins2]
  · rw [hins2, hdel]
    show (if (slotAt t.entries i).object = TOMBSTONE then t.tombstones - 1
      else t.tombstones) + 1 - 1 + 1 =
      (if (slotAt t.entries i).object = TOMBSTONE then t.tombstones - 1
        else t.tombstones) + 1
    omega
  · rw [hins2, hinsi]
    show (slotAt ((t.entries.set i ⟨TOMBSTONE, 0, 0, (slotAt t.entries i).allocations⟩).set i ⟨k, 0, 0, (slotAt t.entries i).allocations⟩) i).object = k
    rw [List.set_set, slotAt_set, if_pos ⟨rfl, hiltL⟩]



/-- Claim C10: inserting a handle that is already present (reachable by
probing past tombstones) finds the existing entry — the returned index is
the slot already holding the key, the occupied and tombstone counts are
unchanged, and the table contents are untouched. -/
theorem C10_insert_idempotent (t : Table) (k : Nat)
    (Hlen : t.entries.length = t.capacity)
    (Hc : 0 < t.capacity)
    (Hcap : t.capacity ≤ MAX_PROBE_LENGTH)
    (Hk0 : k ≠ EMPTY) (HkT : k ≠ TOMBSTONE)
    (Hnores : 2 * (t.count + t.tombstones) ≤ t.capacity)
    (m : Nat) (Hm : m < t.capacity)
    (Hk : (slotAt t.entries (stepN t.capacity (hash_object k t.capacity) m)).object = k)
    (Hocc : ∀ m2, m2 < m →
      (slotAt t.entries (stepN t.capacity (hash_object k t.capacity) m2)).object ≠ EMPTY ∧
      (slotAt t.entries (stepN t.capacity (hash_object k t.capacity) m2)).object ≠ k) :
    (Object_Table_insert t k).1.count = t.count ∧
    (Object_Table_insert t k).1.tombstones = t.tombstones ∧
    (Object_Table_insert t k).1.capacity = t.capacity ∧
    (Object_Table_insert t k).2 = stepN t.capacity (hash_object k t.capacity) m ∧
    (slotAt (Object_Table_insert t k).1.entries (Object_Table_insert t k).2).object = k ∧
    (Object_Table_insert t k).1.entries = t.entries := by
  have hfis : find_insert_slot t k =
      (true, stepN t.capacity (hash_object k t.capacity) m) := by
    unfold find_insert_slot
    exact findInsertSlotAux_found t.entries t.capacity k Hk0 HkT m t.capacity _ 0 none Hm
      (by omega) Hk Hocc
  have hiltL : stepN t.capacity (hash_object k t.capacity) m < t.entries.length := by
    have := stepN_lt t.capacity Hc (hash_object k t.capacity) m (hash_lt k t.capacity Hc)
    omega
  have hslotE : slotAt t.entries (stepN t.capacity (hash_object k t.capacity) m) =
      t.entries[stepN t.capacity (hash_object k t.capacity) m] := by
    unfold slotAt
    rw [List.getElem?_eq_getElem hiltL]
    rfl
  have hupd : ({ slotAt t.entries (stepN t.capacity (hash_object k t.capacity) m) with
      object := k } : Entry) = slotAt t.entries (stepN t.capacity (hash_object k t.capacity) m) := by
    cases hE : slotAt t.entries (stepN t.capacity (hash_object k t.capacity) m) with
    | mk ob kl da al =>
      rw [hE] at Hk
      simp at Hk
      simp [Hk]
  have hins : Object_Table_insert t k =
      ({ t with entries := (t.entries.set (stepN t.capacity (hash_object k t.capacity) m)
          ({ slotAt t.entries (stepN t.capacity (hash_object k t.capacity) m) with
            object := k })) }, stepN t.capacity (hash_object k t.capacity) m) := by
    simp only [Object_Table_insert]
    rw [if_neg (show ¬(2 * (t.count + t.tombstones) > t.capacity) by omega), hfis]
    simp
  have hent : t.entries.set (stepN t.capacity (hash_object k t.capacity) m)
      ({ slotAt t.entries (stepN t.capacity (hash_object k t.capacity) m) with object := k }) =
      t.entries := by
    rw [hupd, hslotE]
    apply List.ext_getElem?
    intro j
    rw [List.getElem?_set]
    split
    · rename_i he
      subst he
      simp [hiltL, List.getElem?_eq_getElem hiltL]
    · rfl
  rw [hins]
  refine ⟨rfl, rfl, rfl, rfl, ?_, hent⟩
  show (slotAt (t.entries.set (stepN t.capacity (hash_object k t.capacity) m)
    ({ slotAt t.entries (stepN t.capacity (hash_object k t.capacity) m) with object := k }))
    (stepN t.capacity (hash_object k t.capacity) m)).object = k
  rw [slotAt_set, if_pos ⟨rfl, hiltL⟩]



/-- Witness for C9 at a concrete empty table of capacity 8 and handle 16. -/
theorem C9_insert_delete_witness :
    Object_Table_lookup (Object_Table_delete (Object_Table_insert c9Table 16).1 16) 16 = none ∧
    (slotAt (Object_Table_delete (Object_Table_insert c9Table 16).1 16).entries
      (Object_Table_insert c9Table 16).2).object = TOMBSTONE ∧
    (Object_Table_delete (Object_Table_insert c9Table 16).1 16).count + 1 =
      (Object_Table_insert c9Table 16).1.count ∧
    (Object_Table_delete (Object_Table_insert c9Table 16).1 16).tombstones =
      (Object_Table_insert c9Table 16).1.tombstones + 1 ∧
    (Object_Table_insert (Object_Table_delete (Object_Table_insert c9Table 16).1 16) 16).2 =
      (Object_Table_insert c9Table 16).2 ∧
    (Object_Table_insert (Object_Table_delete (Object_Table_insert c9Table 16).1 16) 16).1.capacity =
      c9Table.capacity ∧
    (Object_Table_insert
        (Object_Table_delete (Object_Table_insert c9Table 16).1 16) 16).1.tombstones + 1 =
      (Object_Table_delete (Object_Table_insert c9Table 16).1 16).tombstones ∧
    (slotAt (Object_Table_insert
        (Object_Table_delete (Object_Table_insert c9Table 16).1 16) 16).1.entries
      (Object_Table_insert c9Table 16).2).object = 16 :=
  C9_insert_delete_tombstone_reuse c9Table 16 (by decide) (by decide) (by decide) (by decide) (by decide) (by decide)
    ⟨0, by decide, by decide⟩ (by decide)

/-- Witness for C10: a capacity-8 table where handle 16 sits one probe past
a tombstone on its chain. -/
theorem C10_insert_idempotent_witness :
    (Object_Table_insert c10Table 16).1.count = c10Table.count ∧
    (Object_Table_insert c10Table 16).1.tombstones = c10Table.tombstones ∧
    (Object_Table_insert c10Table 16).1.capacity = c10Table.capacity ∧
    (Object_Table_insert c10Table 16).2 =
      stepN c10Table.capacity (hash_object 16 c10Table.capacity) 1 ∧
    (slotAt (Object_Table_insert c10Table 16).1.entries
      (Object_Table_insert c10Table 16).2).object = 16 ∧
    (Object_Table_insert c10Table 16).1.entries = c10Table.entries :=
  C10_insert_idempotent c10Table 16 (by decide) (by decide) (by decide) (by decide) (by decide) (by decide)
    1 (by decide) (by decide) (by decide)

end MemoryTracker
